import Mathlib

/-!
Shallow embedding of gcb2gh (main.go): the per-step status data model, the
transition application performed by the coordination loop in `run`, the event
normalisation in `dockerUpdates`, the status synthesizer `gcb2gh`, and the
process exit-code mapping. Go strings are modelled as Lean `String` (a list of
characters); Go `int`/`int64` as `Int`; Go maps as association lists where a
lookup of an absent key yields the zero value, matching Go map semantics.
-/

/-- The five internal step statuses, in the source's iota order:
`gcbStatusUndef`, `gcbStatusError`, `gcbStatusCancelled`, `gcbStatusRunning`,
`gcbStatusDone` (values 0..4). -/
inductive gcbStatus where
  | undef
  | error
  | cancelled
  | running
  | done
deriving DecidableEq, Repr

/-- The numeric value of a status constant (`iota` in the source). -/
def statusVal : gcbStatus → Nat
  | .undef => 0
  | .error => 1
  | .cancelled => 2
  | .running => 3
  | .done => 4

/-- Source `gcbStatus.String`: index into the array of labels. -/
def statusString : gcbStatus → String
  | .undef => "Unknown"
  | .error => "Error"
  | .cancelled => "Cancelled"
  | .running => "Running"
  | .done => "Done"

/-- The `gcbStep` struct from the source. -/
structure gcbStep where
  status : gcbStatus
  num : Int
  id : String
  exit : Int
  startNano : Int
  endNano : Int
deriving DecidableEq, Repr

/-- The zero value of `gcbStep`, returned by a Go map lookup on a missing key. -/
def zeroStep : gcbStep :=
  { status := .undef, num := 0, id := "", exit := 0, startNano := 0, endNano := 0 }

/-- The `steps` map of `run`: `map[int]gcbStep`, as an association list. -/
abbrev StateMap := List (Int × gcbStep)

/-- Go map read `steps[k]`: first entry with key `k`, or the zero value. -/
def lookupStep (m : StateMap) (k : Int) : gcbStep :=
  ((m.find? (fun p => p.1 == k)).map Prod.snd).getD zeroStep

/-- Go map write `steps[k] = v`: replace the entry for `k`, or add one. -/
def insertStep : StateMap → Int → gcbStep → StateMap
  | [], k, v => [(k, v)]
  | p :: ps, k, v => if p.1 == k then (k, v) :: ps else p :: insertStep ps k v

/-- The `startNano` merge of `run` (main.go lines 115-117): an update
carrying no start time keeps the previously recorded one. -/
def mergeStart (steps : StateMap) (s : gcbStep) : gcbStep :=
  if s.startNano = 0 then { s with startNano := (lookupStep steps s.num).startNano } else s

/-- One iteration of the `case s := <-gcbUpdates` body of `run` (main.go
lines 108-134) for a real update `s`: sticky cancellation, `startNano`
merge, store, and the cancellation cascade when the stored status is Error.
The cascade's Go `range` over the map updates each Running entry in place;
order of iteration does not matter as the update is pointwise. -/
def applyStep (steps : StateMap) (s : gcbStep) : StateMap :=
  if (lookupStep steps s.num).status = .cancelled then steps
  else if (mergeStart steps s).status = .error then
    (insertStep steps s.num (mergeStart steps s)).map (fun p =>
      if p.2.status = .running
        then (p.1, { p.2 with status := .cancelled, endNano := (mergeStart steps s).endNano }) else p)
  else insertStep steps s.num (mergeStart steps s)

/-- Source `strconv.Atoi` syntax check: one or more ASCII digits. Returns the value. -/
def parseDigits (l : List Char) : Option Nat :=
  if l = [] then none
  else if l.all (fun c => c.isDigit) then
    some (l.foldl (fun a c => a * 10 + (c.toNat - 48)) 0)
  else none

/-- Source `atoi`: `strconv.Atoi` discarding the error, so any
syntactically invalid input yields 0. `strconv.Atoi` accepts an optional
sign followed by at least one digit. (The int64 overflow clamp of
`strconv.Atoi` is not modelled; no claim involves out-of-range numerals.) -/
def atoi (s : String) : Int :=
  match s.data with
  | '-' :: rest => ((parseDigits rest).map (fun n => -(n : Int))).getD 0
  | '+' :: rest => ((parseDigits rest).map (fun n => (n : Int))).getD 0
  | l => ((parseDigits l).map (fun n => (n : Int))).getD 0

/-- Source `strings.HasPrefix`, over the character data of the strings. -/
def goHasPre (s p : String) : Bool :=
  p.data.isPrefixOf s.data

/-- Source `strings.TrimPrefix`, over the character data of the strings. -/
def goTrimPre (s p : String) : String :=
  if goHasPre s p then String.mk (s.data.drop p.data.length) else s

/-- Source `dockerAttr`: the attribute fields read by the program (the remaining
JSON fields of the source struct are never read and are omitted). -/
structure dockerAttr where
  name : String
  exitCode : String
  signal : String
deriving DecidableEq, Repr

/-- Source `dockerActor` struct. -/
structure dockerActor where
  id : String
  attributes : dockerAttr
deriving DecidableEq, Repr

/-- Source `dockerEvent`: the event fields read by the program. -/
structure dockerEvent where
  type : String
  action : String
  actor : dockerActor
  timeNano : Int
deriving DecidableEq, Repr

/-- Go map read on `map[int]string` (the manifest ids): zero value `""`. -/
def lookupID (ids : List (Int × String)) (k : Int) : String :=
  ((ids.find? (fun p => p.1 == k)).map Prod.snd).getD ""

/-- The per-event body of the `dockerUpdates` loop (main.go lines 263-295):
filter for container names starting "step_", derive the step number with
`atoi` of the trimmed name, map the action start/kill/die to a status, and
resolve the display id from the manifest ids with the raw name as fallback.
`none` models `continue` (event discarded). -/
def normalizeEvent (ids : List (Int × String)) (e : dockerEvent) : Option gcbStep :=
  if ¬ goHasPre e.actor.attributes.name "step_" then none
  else
    let num := atoi (goTrimPre e.actor.attributes.name "step_")
    let s? : Option gcbStep :=
      match e.action with
      | "start" => some { zeroStep with num := num, status := .running, startNano := e.timeNano }
      | "kill" => some { zeroStep with num := num, status := .cancelled, endNano := e.timeNano }
      | "die" =>
        let ex := atoi e.actor.attributes.exitCode
        some { zeroStep with
                 num := num
                 endNano := e.timeNano
                 exit := ex
                 status := if ex = 0 then .done else .error }
      | _ => none
    s?.map (fun s =>
      let i := lookupID ids s.num
      { s with id := if i = "" then e.actor.attributes.name else i })

/-- The `sort.Slice` comparator of `gcb2gh` (main.go lines 310-323). The
`>=` comparisons sit under a `!=` guard, so the function is a strict
"less" on the compared fields. -/
def stepLT (a b : gcbStep) : Bool :=
  if a.status ≠ b.status then decide (statusVal a.status < statusVal b.status)
  else if a.endNano ≠ b.endNano then decide (b.endNano ≤ a.endNano)
  else if a.startNano ≠ b.startNano then decide (b.startNano ≤ a.startNano)
  else decide (a.num < b.num)

/-- Non-strict companion of `stepLT`: the order in which `sort.Slice`
leaves the slice (`¬ less b a` between consecutive elements). -/
def stepLE (a b : gcbStep) : Bool :=
  ! stepLT b a

/-- Insert into a list sorted by `stepLE`. -/
def insertSorted (s : gcbStep) : List gcbStep → List gcbStep
  | [] => [s]
  | t :: ts => if stepLE s t then s :: t :: ts else t :: insertSorted s ts

/-- The sort of `gcb2gh`: a sorted permutation of the input under `stepLE`.
`sort.Slice` may place tied elements in any order; the snapshots the
program sorts have pairwise distinct `num` keys, for which `stepLE` has no
ties, so the sorted list is unique (proved below) and an insertion sort is
a faithful model. -/
def sortSteps (l : List gcbStep) : List gcbStep :=
  l.foldr insertSorted []

/-- Modelled from the spec: the ordering described in §4.5 step 1 — status
in the fixed precedence Error, Cancelled, Running, Done, then end time
descending, then start time descending, then step number ascending. -/
def statusRank : gcbStatus → Nat
  | .error => 0
  | .cancelled => 1
  | .running => 2
  | .done => 3
  | .undef => 4

/-- Modelled from the spec: the lexicographic comparison of §4.5 step 1. -/
def specStepLT (a b : gcbStep) : Bool :=
  if statusRank a.status ≠ statusRank b.status then decide (statusRank a.status < statusRank b.status)
  else if a.endNano ≠ b.endNano then decide (b.endNano < a.endNano)
  else if a.startNano ≠ b.startNano then decide (b.startNano < a.startNano)
  else decide (a.num < b.num)

/-- Source `time.Second` in nanoseconds. -/
def nsSecond : Int := 1000000000

/-- Source `time.Minute` in nanoseconds. -/
def nsMinute : Int := 60 * nsSecond

/-- Source `time.Hour` in nanoseconds. -/
def nsHour : Int := 60 * nsMinute

/-- Source `Day` from `fmtDuration`. -/
def nsDay : Int := 24 * nsHour

/-- Source `Year` from `fmtDuration`. -/
def nsYear : Int := 365 * nsDay

/-- Source `fmtDuration`: the two most significant units of the
duration `d` (nanoseconds). Go's `int64` division truncates toward zero,
which is `Int.tdiv` / `Int.tmod`. -/
def fmtDuration (d : Int) : String :=
  if nsYear < d then toString (d.tdiv nsYear) ++ "y" ++ toString ((d.tmod nsYear).tdiv nsDay) ++ "d"
  else if nsDay < d then toString (d.tdiv nsDay) ++ "d" ++ toString ((d.tmod nsDay).tdiv nsHour) ++ "h"
  else if nsHour < d then toString (d.tdiv nsHour) ++ "h" ++ toString ((d.tmod nsHour).tdiv nsMinute) ++ "m"
  else if nsMinute < d then toString (d.tdiv nsMinute) ++ "m" ++ toString ((d.tmod nsMinute).tdiv nsSecond) ++ "s"
  else toString ((d.tmod nsMinute).tdiv nsSecond) ++ "s"

/-- The summary-building loop of `gcb2gh` (main.go lines 324-348), with the
`stPrev` accumulator made explicit (its initial value is the zero status
`gcbStatusUndef`). Each new status group is prefixed with its label and a
colon, groups are separated by "; ", steps within a group by ", ", and a
step whose elapsed time exceeds 10 seconds gets a duration suffix. -/
def summaryLoop (nowNano : Int) : gcbStatus → List gcbStep → String
  | _, [] => ""
  | stPrev, s :: rest =>
    let head :=
      if s.status ≠ stPrev then
        (if stPrev ≠ .undef then "; " else "") ++ statusString s.status ++ ": "
      else ", "
    let e := if s.endNano = 0 then nowNano else s.endNano
    let d := e - s.startNano
    let dur := if 10 * nsSecond < d then " " ++ fmtDuration d else ""
    head ++ s.id ++ dur ++ summaryLoop nowNano s.status rest

/-- The untruncated summary of a sorted step list. -/
def stepsSummary (nowNano : Int) (st : List gcbStep) : String :=
  summaryLoop nowNano .undef st

/-- Go string slicing `s[:n]`, over the character data. -/
def strTake (s : String) (n : Nat) : String :=
  String.mk (s.data.take n)

/-- The truncation of `gcb2gh` (main.go lines 350-354):
`if len(status) >= 140 { status = status[:140] }`. -/
def truncStatus (s : String) : String :=
  if 140 ≤ s.length then strTake s 140 else s

/-- Source `buildContext` struct (all fields are environment strings). -/
structure buildContext where
  docker : String
  project : String
  id : String
  manifest : String
  github : String
  token : String
  user : String
  repo : String
  sha : String
  context : String
deriving DecidableEq, Repr

/-- Source `ghStatusUpdate` struct. -/
structure ghStatusUpdate where
  state : String
  targetURL : String
  description : String
  context : String
deriving DecidableEq, Repr

/-- Source `ghCommitStateError`. -/
def ghCommitStateError : String := "error"

/-- Source `ghCommitStateSuccess`. -/
def ghCommitStateSuccess : String := "success"

/-- Source `ghCommitStatePending`. -/
def ghCommitStatePending : String := "pending"

/-- Source `url.PathEscape`, modelled as the identity: no claim concerns escaping,
and the escapings of the claims' inputs are identities. -/
def urlPathEscape (s : String) : String := s

/-- Source `url.QueryEscape`, modelled as the identity (see `urlPathEscape`). -/
def urlQueryEscape (s : String) : String := s

/-- The step values of the state map, in entry order. Go iterates map
values in arbitrary order; the subsequent sort makes the result
independent of that order for snapshots with distinct keys (see the
uniqueness part of the sort-order theorem below). -/
def stateVals (m : StateMap) : List gcbStep :=
  m.map Prod.snd

/-- The `switch s0.status` of `gcb2gh` (main.go lines 358-376): Error maps
to the error state; Done to success when the expected count is unknown (0)
or matched by the observed count, otherwise falling through to pending
with Running; Cancelled and Undef match no case, leaving the zero value
`""`. -/
def ghState (s0status : gcbStatus) (lenSt numSteps : Nat) : String :=
  match s0status with
  | .error => ghCommitStateError
  | .done =>
    if numSteps = 0 ∨ lenSt = numSteps then ghCommitStateSuccess else ghCommitStatePending
  | .running => ghCommitStatePending
  | _ => ""

/-- The target URL of `gcb2gh` (main.go lines 380-382), linking to the
build and the first sorted step's number. -/
def ghTarget (build : buildContext) (num : Int) : String :=
  "https://console.cloud.google.com/cloud-build/builds/" ++ urlPathEscape build.id
    ++ ";step=" ++ toString num ++ "?project=" ++ urlQueryEscape build.project

/-- Source `gcb2gh` (main.go lines 304-391): sort the snapshot,
build and truncate the description, derive the coarse commit state from
the first sorted entry, and build the target URL. On an empty snapshot the
source reads `st[0]` out of bounds (a panic); this partiality is modelled
by `none` (claim about the empty snapshot below). -/
def gcb2gh (build : buildContext) (steps : StateMap) (numSteps : Nat) (nowNano : Int) : Option ghStatusUpdate :=
  let st := sortSteps (stateVals steps)
  let status := truncStatus (stepsSummary nowNano st)
  match st with
  | [] => none
  | s0 :: _ =>
    some { context := build.context, description := status,
           state := ghState s0.status st.length numSteps, targetURL := ghTarget build s0.num }

/-- The coordination loop of `run` reduced to its state accumulation: the
updates received before end-of-stream are applied in arrival order, and
after end-of-stream the loop still publishes from the accumulated map
(main.go lines 144-157 close `gcbUpdates`; the drained-channel sentinel at
lines 103-107 falls through to the publish at line 157), so `gcb2gh` is
reached even when no step event was ever received. `numSteps` is
`len(ids)` as in `run`. -/
def runFinalPublish (build : buildContext) (ids : List (Int × String)) (events : List gcbStep)
    (nowNano : Int) : Option ghStatusUpdate :=
  gcb2gh build (events.foldl applyStep []) ids.length nowNano

/-- Go error values produced by the program: a plain error message, or an
`exitError` wrapping an inner error with a code (`exit` in the source). -/
inductive goError where
  | plain (msg : String)
  | exitWrap (code : Int) (inner : goError)
deriving DecidableEq, Repr

/-- Source `exit`: return err wrapped with an exit code. -/
def exit (code : Int) (err : goError) : goError :=
  .exitWrap code err

/-- Source `errors.As(err, &x)` for `interface Code() int`: the outermost error
in the unwrap chain carrying a code, if any. -/
def errCode : goError → Option Int
  | .exitWrap c _ => some c
  | .plain _ => none

/-- Source `exitCode`: 0 for nil, the unwrapped `Code()` if
present, else 1. -/
def exitCode : Option goError → Int
  | none => 0
  | some e => (errCode e).getD 1

/-- The possible outcomes of `docker.Get(dockerHost + "/events...")`: a
transport-level error (e.g. connection refused), or an HTTP response with
a status code. -/
inductive connectOutcome where
  | dialFailure (msg : String)
  | response (statusCode : Nat)
deriving DecidableEq, Repr

/-- What `dockerUpdates` does at stream setup (main.go lines 237-246): on a
transport error it calls `log.Fatalf`, which is `os.Exit(1)`; on a non-200
response it returns the error wrapped with `exit(3, ...)`; on 200 it
proceeds to stream events. -/
inductive setupResult where
  | fatalExit (code : Int)
  | returnErr (e : goError)
  | streaming
deriving DecidableEq, Repr

/-- The stream-setup branch of `dockerUpdates` (main.go lines 237-246). -/
def dockerStreamSetup : connectOutcome → setupResult
  | .dialFailure _ => .fatalExit 1
  | .response code =>
    if code ≠ 200 then .returnErr (exit 3 (.plain "fetching docker events")) else .streaming

/-- The process exit code when stream setup fails: `log.Fatalf` exits the
process directly; a returned error propagates through `run` to `main`,
which exits with `exitCode(err)` (main.go lines 38-42). `none` when setup
succeeds and the process keeps running. -/
def setupExitCode (o : connectOutcome) : Option Int :=
  match dockerStreamSetup o with
  | .fatalExit c => some c
  | .returnErr e => some (exitCode (some e))
  | .streaming => none

theorem statusVal_inj {a b : gcbStatus} (h : statusVal a = statusVal b) : a = b := by
  cases a <;> cases b <;> simp_all [statusVal]

theorem statusRank_inj {a b : gcbStatus} (h : statusRank a = statusRank b) : a = b := by
  cases a <;> cases b <;> simp_all [statusRank]

theorem stepLT_iff (a b : gcbStep) : stepLT a b = true ↔
    (statusVal a.status < statusVal b.status ∨
      (statusVal a.status = statusVal b.status ∧ b.endNano < a.endNano) ∨
      (statusVal a.status = statusVal b.status ∧ a.endNano = b.endNano ∧ b.startNano < a.startNano) ∨
      (statusVal a.status = statusVal b.status ∧ a.endNano = b.endNano ∧ a.startNano = b.startNano ∧
        a.num < b.num)) := by
  by_cases h1 : a.status = b.status
  · by_cases h2 : a.endNano = b.endNano
    · by_cases h3 : a.startNano = b.startNano
      · simp [stepLT, h1, h2, h3]
      · simp [stepLT, h1, h2, h3]
        omega
    · simp [stepLT, h1, h2]
      omega
  · have h1v : ¬ statusVal a.status = statusVal b.status := fun h => h1 (statusVal_inj h)
    simp [stepLT, h1, h1v]

theorem specStepLT_iff (a b : gcbStep) : specStepLT a b = true ↔
    (statusRank a.status < statusRank b.status ∨
      (statusRank a.status = statusRank b.status ∧ b.endNano < a.endNano) ∨
      (statusRank a.status = statusRank b.status ∧ a.endNano = b.endNano ∧ b.startNano < a.startNano) ∨
      (statusRank a.status = statusRank b.status ∧ a.endNano = b.endNano ∧ a.startNano = b.startNano ∧
        a.num < b.num)) := by
  by_cases h1 : statusRank a.status = statusRank b.status
  · by_cases h2 : a.endNano = b.endNano
    · by_cases h3 : a.startNano = b.startNano
      · simp [specStepLT, h1, h2, h3]
      · simp [specStepLT, h1, h2, h3]
    · simp [specStepLT, h1, h2]
  · simp [specStepLT, h1]

theorem stepLE_iff (a b : gcbStep) : stepLE a b = true ↔ ¬ stepLT b a = true := by
  simp [stepLE]

/-- The non-strict sorted-order relation left by the sort. -/
def stepR (a b : gcbStep) : Prop :=
  stepLE a b = true

instance : DecidableRel stepR := fun a b => by
  unfold stepR
  infer_instance

theorem stepR_total (a b : gcbStep) : stepR a b ∨ stepR b a := by
  simp only [stepR, stepLE_iff, stepLT_iff]
  omega

theorem stepR_trans {a b c : gcbStep} (h1 : stepR a b) (h2 : stepR b c) : stepR a c := by
  simp only [stepR, stepLE_iff, stepLT_iff] at h1 h2 ⊢
  omega

theorem stepR_antisymm_num {a b : gcbStep} (h1 : stepR a b) (h2 : stepR b a) : a.num = b.num := by
  simp only [stepR, stepLE_iff, stepLT_iff] at h1 h2
  omega

theorem perm_insertSorted (s : gcbStep) (l : List gcbStep) :
    List.Perm (insertSorted s l) (s :: l) := by
  induction l with
  | nil => simp [insertSorted]
  | cons t ts ih =>
    unfold insertSorted
    by_cases h : stepLE s t = true
    · simp [h]
    · simp only [h, if_false]
      exact (List.Perm.cons t ih).trans (List.Perm.swap s t ts)

theorem perm_sortSteps (l : List gcbStep) : List.Perm (sortSteps l) l := by
  induction l with
  | nil => simp [sortSteps]
  | cons x xs ih =>
    have : sortSteps (x :: xs) = insertSorted x (sortSteps xs) := rfl
    rw [this]
    exact (perm_insertSorted x (sortSteps xs)).trans (List.Perm.cons x ih)

theorem sorted_insertSorted (s : gcbStep) {l : List gcbStep} (h : l.Sorted stepR) :
    (insertSorted s l).Sorted stepR := by
  induction l with
  | nil => simp [insertSorted]
  | cons t ts ih =>
    rw [List.sorted_cons] at h
    unfold insertSorted
    by_cases hle : stepLE s t = true
    · rw [if_pos hle, List.sorted_cons]
      refine ⟨?_, List.sorted_cons.mpr h⟩
      intro b hb
      rcases List.mem_cons.mp hb with hb | hb
      · exact hb ▸ hle
      · exact stepR_trans hle (h.1 b hb)
    · rw [if_neg hle, List.sorted_cons]
      refine ⟨?_, ih h.2⟩
      intro b hb
      have hb' : b ∈ s :: ts := (perm_insertSorted s ts).mem_iff.mp hb
      rcases List.mem_cons.mp hb' with hb' | hb'
      · subst hb'
        rcases stepR_total t b with ht | ht
        · exact ht
        · exact absurd ht hle
      · exact h.1 b hb'

theorem sorted_sortSteps (l : List gcbStep) : (sortSteps l).Sorted stepR := by
  induction l with
  | nil => simp [sortSteps]
  | cons x xs ih => exact sorted_insertSorted x ih

/-- Two sorted permutations of the same list of steps are equal, provided
the step numbers determine the entries (the map-snapshot situation). -/
theorem sorted_unique : ∀ {l₁ l₂ : List gcbStep}, List.Perm l₁ l₂ →
    l₁.Sorted stepR → l₂.Sorted stepR →
    (∀ a ∈ l₁, ∀ b ∈ l₁, a.num = b.num → a = b) → l₁ = l₂ := by
  intro l₁
  induction l₁ with
  | nil =>
    intro l₂ hp _ _ _
    exact (hp.nil_eq).symm ▸ rfl
  | cons a t₁ ih =>
    intro l₂ hp h₁ h₂ hinj
    cases l₂ with
    | nil => exact absurd hp.symm.nil_eq (by simp)
    | cons b t₂ =>
      have hab : a = b := by
        by_cases hab : a = b
        · exact hab
        · have hbmem : b ∈ a :: t₁ := hp.mem_iff.mpr (List.mem_cons_self b t₂)
          have hbt : b ∈ t₁ := by
            rcases List.mem_cons.mp hbmem with h | h
            · exact absurd h.symm hab
            · exact h
          have hamem : a ∈ b :: t₂ := hp.mem_iff.mp (List.mem_cons_self a t₁)
          have hat : a ∈ t₂ := by
            rcases List.mem_cons.mp hamem with h | h
            · exact absurd h hab
            · exact h
          have hR1 : stepR a b := (List.sorted_cons.mp h₁).1 b hbt
          have hR2 : stepR b a := (List.sorted_cons.mp h₂).1 a hat
          exact absurd
            (hinj a (List.mem_cons_self a t₁) b (List.mem_cons_of_mem a hbt)
              (stepR_antisymm_num hR1 hR2)) hab
      subst hab
      have htp : List.Perm t₁ t₂ := hp.cons_inv
      have : t₁ = t₂ :=
        ih htp (List.sorted_cons.mp h₁).2 (List.sorted_cons.mp h₂).2
          (fun x hx y hy hxy =>
            hinj x (List.mem_cons_of_mem a hx) y (List.mem_cons_of_mem a hy) hxy)
      rw [this]

theorem lookupStep_cons (p : Int × gcbStep) (ps : StateMap) (k : Int) :
    lookupStep (p :: ps) k = if p.1 = k then p.2 else lookupStep ps k := by
  by_cases h : p.1 = k
  · simp [lookupStep, List.find?_cons_of_pos, h]
  · simp [lookupStep, List.find?_cons_of_neg, h]

theorem lookupStep_insertStep (m : StateMap) (k k' : Int) (v : gcbStep) :
    lookupStep (insertStep m k v) k' = if k = k' then v else lookupStep m k' := by
  induction m with
  | nil =>
    by_cases h : k = k'
    · simp [insertStep, lookupStep, h]
    · simp [insertStep, lookupStep, h]
  | cons p ps ih =>
    by_cases h : p.1 = k
    · rw [show insertStep (p :: ps) k v = (k, v) :: ps by simp [insertStep, h]]
      by_cases h' : k = k'
      · simp [lookupStep_cons, h']
      · simp [lookupStep_cons, h', h ▸ h']
    · rw [show insertStep (p :: ps) k v = p :: insertStep ps k v by simp [insertStep, h]]
      rw [lookupStep_cons, ih, lookupStep_cons]
      by_cases h' : p.1 = k'
      · have : ¬ k = k' := fun hk => h (hk ▸ h')
        simp [h', this]
      · simp [h']

/-- The pointwise entry update of the cancellation cascade. -/
def cancelRunning (e : Int) (st : gcbStep) : gcbStep :=
  if st.status = .running then { st with status := .cancelled, endNano := e } else st

theorem cascade_map_eq (e : Int) (m : StateMap) :
    m.map (fun p => if p.2.status = .running
        then (p.1, { p.2 with status := .cancelled, endNano := e }) else p)
      = m.map (fun p => (p.1, cancelRunning e p.2)) := by
  apply List.map_congr_left
  intro p _
  unfold cancelRunning
  by_cases h : p.2.status = .running
  · simp [h]
  · simp [h]

theorem lookupStep_mapVal (g : gcbStep → gcbStep) (hg : g zeroStep = zeroStep)
    (m : StateMap) (k : Int) :
    lookupStep (m.map (fun p => (p.1, g p.2))) k = g (lookupStep m k) := by
  induction m with
  | nil => simp [lookupStep, hg]
  | cons p ps ih =>
    rw [List.map_cons, lookupStep_cons, lookupStep_cons]
    by_cases h : p.1 = k
    · simp [h]
    · simp [h, ih]

theorem mergeStart_status (m : StateMap) (s : gcbStep) : (mergeStart m s).status = s.status := by
  unfold mergeStart
  split <;> rfl

theorem mergeStart_endNano (m : StateMap) (s : gcbStep) : (mergeStart m s).endNano = s.endNano := by
  unfold mergeStart
  split <;> rfl

theorem mergeStart_num (m : StateMap) (s : gcbStep) : (mergeStart m s).num = s.num := by
  unfold mergeStart
  split <;> rfl

theorem cancelRunning_zeroStep (e : Int) : cancelRunning e zeroStep = zeroStep := by
  simp [cancelRunning, zeroStep]

/-- The entry stored for the updated step itself, when the update is not
suppressed by sticky cancellation, is exactly the merged update. -/
theorem lookupStep_applyStep_self (m : StateMap) (t : gcbStep)
    (h : ¬ (lookupStep m t.num).status = .cancelled) :
    lookupStep (applyStep m t) t.num = mergeStart m t := by
  unfold applyStep
  rw [if_neg h]
  by_cases he : (mergeStart m t).status = .error
  · rw [if_pos he, cascade_map_eq,
      lookupStep_mapVal _ (cancelRunning_zeroStep _), lookupStep_insertStep, if_pos rfl]
    unfold cancelRunning
    rw [if_neg (by rw [he]; intro hc; exact gcbStatus.noConfusion hc)]
  · rw [if_neg he, lookupStep_insertStep, if_pos rfl]

/-- C1: sticky cancellation leaves the whole state map unchanged. -/
theorem c1_sticky (m : StateMap) (t : gcbStep)
    (h : (lookupStep m t.num).status = .cancelled) :
    applyStep m t = m := by
  unfold applyStep
  rw [if_pos h]

/-- After an applied Error transition, every other key's entry is the
cascade image of its previous entry. -/
theorem lookupStep_applyStep_other (m : StateMap) (t : gcbStep)
    (h1 : ¬ (lookupStep m t.num).status = .cancelled) (h2 : t.status = .error)
    (n : Int) (hn : ¬ n = t.num) :
    lookupStep (applyStep m t) n = cancelRunning t.endNano (lookupStep m n) := by
  unfold applyStep
  rw [if_neg h1, if_pos (by rw [mergeStart_status]; exact h2), mergeStart_endNano,
    cascade_map_eq, lookupStep_mapVal _ (cancelRunning_zeroStep _), lookupStep_insertStep,
    if_neg (fun hk => hn hk.symm)]

/-- C2: the cancellation cascade. For an applied transition of resulting
status Error, every other step that was Running becomes Cancelled with the
trigger's end time, and every other step that was not Running keeps its
previous entry. -/
theorem c2_cascade (m : StateMap) (t : gcbStep)
    (h1 : ¬ (lookupStep m t.num).status = .cancelled) (h2 : t.status = .error)
    (n : Int) (hn : ¬ n = t.num) :
    ((lookupStep m n).status = .running →
        lookupStep (applyStep m t) n =
          { lookupStep m n with status := .cancelled, endNano := t.endNano })
    ∧ (¬ (lookupStep m n).status = .running →
        lookupStep (applyStep m t) n = lookupStep m n) := by
  rw [lookupStep_applyStep_other m t h1 h2 n hn]
  constructor
  · intro hr
    rw [cancelRunning, if_pos hr]
  · intro hr
    rw [cancelRunning, if_neg hr]

/-- Example running steps and an error transition for the witnesses. -/
def exRun0 : gcbStep :=
  { status := .running, num := 0, id := "step_0", exit := 0, startNano := 3, endNano := 0 }

def exRun1 : gcbStep :=
  { status := .running, num := 1, id := "step_1", exit := 0, startNano := 4, endNano := 0 }

def exErr1 : gcbStep :=
  { status := .error, num := 1, id := "step_1", exit := 2, startNano := 4, endNano := 99 }

def exDone0 : gcbStep :=
  { status := .done, num := 0, id := "step_0", exit := 0, startNano := 3, endNano := 8 }

def exCancel0 : gcbStep :=
  { status := .cancelled, num := 0, id := "step_0", exit := 0, startNano := 5, endNano := 9 }

def exMapRun : StateMap := [(0, exRun0), (1, exRun1)]

def exMapCancel : StateMap := [(0, exCancel0)]

theorem c1_sticky_witness :
    (lookupStep exMapCancel exDone0.num).status = .cancelled ∧
      applyStep exMapCancel exDone0 = exMapCancel :=
  ⟨by decide, c1_sticky exMapCancel exDone0 (by decide)⟩

theorem c2_cascade_witness :
    lookupStep (applyStep exMapRun exErr1) 0 =
      { lookupStep exMapRun 0 with status := .cancelled, endNano := exErr1.endNano } :=
  (c2_cascade exMapRun exErr1 (by decide) (by decide) 0 (by decide)).1 (by decide)

/-- C7 amended: when the target step is not already Cancelled, the applied
transition stores its own fields, taking the start time from the previous
entry when the incoming one is zero. -/
theorem c7_merge (m : StateMap) (t : gcbStep)
    (h : ¬ (lookupStep m t.num).status = .cancelled) :
    (t.startNano = 0 →
        lookupStep (applyStep m t) t.num = { t with startNano := (lookupStep m t.num).startNano })
    ∧ (¬ t.startNano = 0 → lookupStep (applyStep m t) t.num = t) := by
  rw [lookupStep_applyStep_self m t h]
  constructor
  · intro hz
    rw [mergeStart, if_pos hz]
  · intro hz
    rw [mergeStart, if_neg hz]

theorem c7_merge_witness :
    ¬ (lookupStep exMapRun exErr1.num).status = .cancelled ∧
      ((exErr1.startNano = 0 →
          lookupStep (applyStep exMapRun exErr1) exErr1.num =
            { exErr1 with startNano := (lookupStep exMapRun exErr1.num).startNano })
        ∧ (¬ exErr1.startNano = 0 → lookupStep (applyStep exMapRun exErr1) exErr1.num = exErr1)) :=
  ⟨by decide, c7_merge exMapRun exErr1 (by decide)⟩

/-- An update with no start time arriving for an already-Cancelled step:
the claim's predicted merged entry is not stored — sticky cancellation
keeps the old entry, refuting C7 as universally stated. -/
def exDieAfterCancel : gcbStep :=
  { status := .done, num := 0, id := "step_0", exit := 0, startNano := 0, endNano := 12 }

theorem c7_counterexample :
    exDieAfterCancel.startNano = 0 ∧
      lookupStep (applyStep exMapCancel exDieAfterCancel) exDieAfterCancel.num ≠
        { exDieAfterCancel with startNano := (lookupStep exMapCancel exDieAfterCancel.num).startNano } := by
  decide

/-- The output of `gcb2gh` on a snapshot whose sorted step list is known. -/
theorem gcb2gh_cons (bc : buildContext) (m : StateMap) (n : Nat) (now : Int)
    (s0 : gcbStep) (rest : List gcbStep) (h : sortSteps (stateVals m) = s0 :: rest) :
    gcb2gh bc m n now =
      some { context := bc.context,
             description := truncStatus (stepsSummary now (s0 :: rest)),
             state := ghState s0.status (s0 :: rest).length n,
             targetURL := ghTarget bc s0.num } := by
  unfold gcb2gh
  rw [h]

/-- Example build context for the witnesses. -/
def bcEx : buildContext :=
  { docker := ""
    project := "gcb-project"
    id := "build-123"
    manifest := ""
    github := ""
    token := ""
    user := ""
    repo := ""
    sha := ""
    context := "gcb" }

/-- C4: the coarse status derivation from the first sorted entry. -/
theorem c4_coarse (bc : buildContext) (m : StateMap) (n : Nat) (now : Int)
    (s0 : gcbStep) (rest : List gcbStep) (h : sortSteps (stateVals m) = s0 :: rest) :
    ∃ gh, gcb2gh bc m n now = some gh
      ∧ (s0.status = .error → gh.state = ghCommitStateError)
      ∧ (s0.status = .running → gh.state = ghCommitStatePending)
      ∧ (s0.status = .done →
          ((n = 0 ∨ (s0 :: rest).length = n) → gh.state = ghCommitStateSuccess)
          ∧ (¬ (n = 0 ∨ (s0 :: rest).length = n) → gh.state = ghCommitStatePending)) := by
  refine ⟨_, gcb2gh_cons bc m n now s0 rest h, ?_, ?_, ?_⟩
  · intro hs
    simp [ghState, hs]
  · intro hs
    simp [ghState, hs]
  · intro hs
    constructor
    · intro hc
      simp only [List.length_cons] at hc
      simp [ghState, hs, hc]
    · intro hc
      simp only [List.length_cons] at hc
      simp [ghState, hs, hc]

theorem c4_coarse_witness :
    sortSteps (stateVals exMapRun) = [exRun1, exRun0] ∧
      (∃ gh, gcb2gh bcEx exMapRun 2 10 = some gh
        ∧ (exRun1.status = .error → gh.state = ghCommitStateError)
        ∧ (exRun1.status = .running → gh.state = ghCommitStatePending)
        ∧ (exRun1.status = .done →
            ((2 = 0 ∨ ([exRun1, exRun0] : List gcbStep).length = 2) → gh.state = ghCommitStateSuccess)
            ∧ (¬ (2 = 0 ∨ ([exRun1, exRun0] : List gcbStep).length = 2) →
                gh.state = ghCommitStatePending))) :=
  ⟨by decide, c4_coarse bcEx exMapRun 2 10 exRun1 [exRun0] (by decide)⟩

/-- C3 amended: the coarse state is one of pending, success, error exactly
when the first sorted entry's status is Error, Running, or Done; a first
entry with status Cancelled (or the unreachable Undef) yields the zero
value `""`, which is none of the three. -/
theorem c3_states (bc : buildContext) (m : StateMap) (n : Nat) (now : Int)
    (s0 : gcbStep) (rest : List gcbStep) (h : sortSteps (stateVals m) = s0 :: rest) :
    ∃ gh, gcb2gh bc m n now = some gh
      ∧ ((s0.status = .error ∨ s0.status = .running ∨ s0.status = .done) →
          (gh.state = ghCommitStatePending ∨ gh.state = ghCommitStateSuccess ∨
            gh.state = ghCommitStateError))
      ∧ ((s0.status = .cancelled ∨ s0.status = .undef) → gh.state = "") := by
  refine ⟨_, gcb2gh_cons bc m n now s0 rest h, ?_, ?_⟩
  · rintro (hs | hs | hs)
    · simp [ghState, hs]
    · simp [ghState, hs]
    · by_cases hc : n = 0 ∨ (s0 :: rest).length = n
      all_goals simp only [List.length_cons] at hc
      · simp [ghState, hs, hc]
      · simp [ghState, hs, hc]
  · rintro (hs | hs)
    · simp [ghState, hs]
    · simp [ghState, hs]

theorem c3_states_witness :
    sortSteps (stateVals exMapRun) = [exRun1, exRun0] ∧
      (∃ gh, gcb2gh bcEx exMapRun 2 10 = some gh
        ∧ ((exRun1.status = .error ∨ exRun1.status = .running ∨ exRun1.status = .done) →
            (gh.state = ghCommitStatePending ∨ gh.state = ghCommitStateSuccess ∨
              gh.state = ghCommitStateError))
        ∧ ((exRun1.status = .cancelled ∨ exRun1.status = .undef) → gh.state = "")) :=
  ⟨by decide, c3_states bcEx exMapRun 2 10 exRun1 [exRun0] (by decide)⟩

/-- C3 counterexample: a snapshot with a single Cancelled step (reachable:
a `kill` event with no preceding failure) synthesizes the commit state
`""`, which is none of pending, success, error. -/
theorem c3_counterexample :
    (gcb2gh bcEx exMapCancel 0 10).map (fun gh => gh.state) = some "" ∧
      ¬ ("" = ghCommitStatePending ∨ "" = ghCommitStateSuccess ∨ "" = ghCommitStateError) := by
  decide

theorem strTake_length (s : String) (n : Nat) : (strTake s n).length = min n s.length :=
  List.length_take n s.data

theorem truncStatus_length (s : String) : (truncStatus s).length ≤ 140 := by
  unfold truncStatus
  split
  · rw [strTake_length]
    exact Nat.min_le_left 140 s.length
  · next h => omega

/-- C5: the synthesized description is the summary hard-truncated to at
most 140 characters, with no marker appended. -/
theorem c5_truncation (bc : buildContext) (m : StateMap) (n : Nat) (now : Int)
    (s0 : gcbStep) (rest : List gcbStep) (h : sortSteps (stateVals m) = s0 :: rest) :
    (gcb2gh bc m n now).map (fun gh => gh.description) =
        some (truncStatus (stepsSummary now (s0 :: rest)))
      ∧ (truncStatus (stepsSummary now (s0 :: rest))).length ≤ 140
      ∧ (140 < (stepsSummary now (s0 :: rest)).length →
          truncStatus (stepsSummary now (s0 :: rest)) = strTake (stepsSummary now (s0 :: rest)) 140) := by
  refine ⟨?_, truncStatus_length _, ?_⟩
  · rw [gcb2gh_cons bc m n now s0 rest h]
    rfl
  · intro hl
    rw [truncStatus, if_pos (by omega)]

theorem c5_truncation_witness :
    sortSteps (stateVals exMapRun) = [exRun1, exRun0] ∧
      ((gcb2gh bcEx exMapRun 2 10).map (fun gh => gh.description) =
          some (truncStatus (stepsSummary 10 [exRun1, exRun0]))
        ∧ (truncStatus (stepsSummary 10 [exRun1, exRun0])).length ≤ 140
        ∧ (140 < (stepsSummary 10 [exRun1, exRun0]).length →
            truncStatus (stepsSummary 10 [exRun1, exRun0]) =
              strTake (stepsSummary 10 [exRun1, exRun0]) 140)) :=
  ⟨by decide, c5_truncation bcEx exMapRun 2 10 exRun1 [exRun0] (by decide)⟩

theorem statusVal_rank_link {a b : gcbStatus} (ha : a ≠ .undef) (hb : b ≠ .undef) :
    (statusVal a < statusVal b ↔ statusRank a < statusRank b)
    ∧ (statusVal a = statusVal b ↔ statusRank a = statusRank b) := by
  cases a <;> cases b <;> simp_all [statusVal, statusRank]

/-- C6: the comparator of `gcb2gh` is exactly the spec's lexicographic
order on non-Undef statuses (precedence Error, Cancelled, Running, Done,
then end time descending, start time descending, step number ascending);
it is asymmetric, transitive, and connex on steps with distinct numbers
(hence a strict total order on a snapshot's entries, whose numbers are
unique map keys); the sort emits a `stepR`-sorted permutation, and for any
two orderings of a snapshot with distinct step numbers the sorted list is
the same — the output is uniquely determined by the snapshot. -/
theorem c6_sort_order :
    (∀ a b : gcbStep, a.status ≠ .undef → b.status ≠ .undef → stepLT a b = specStepLT a b)
    ∧ (∀ a b : gcbStep, ¬ (stepLT a b = true ∧ stepLT b a = true))
    ∧ (∀ a b c : gcbStep, stepLT a b = true → stepLT b c = true → stepLT a c = true)
    ∧ (∀ a b : gcbStep, ¬ a.num = b.num → stepLT a b = true ∨ stepLT b a = true)
    ∧ (∀ l : List gcbStep, (sortSteps l).Sorted stepR ∧ List.Perm (sortSteps l) l)
    ∧ (∀ l₁ l₂ : List gcbStep, List.Perm l₁ l₂ → (l₁.map (fun s => s.num)).Nodup →
        sortSteps l₁ = sortSteps l₂) := by
  refine ⟨?_, ?_, ?_, ?_, ?_, ?_⟩
  · intro a b ha hb
    rw [Bool.eq_iff_iff, stepLT_iff, specStepLT_iff]
    obtain ⟨h1, h2⟩ := statusVal_rank_link ha hb
    omega
  · intro a b
    simp only [stepLT_iff]
    omega
  · intro a b c
    simp only [stepLT_iff]
    omega
  · intro a b h
    simp only [stepLT_iff]
    omega
  · intro l
    exact ⟨sorted_sortSteps l, perm_sortSteps l⟩
  · intro l₁ l₂ hp hnd
    apply sorted_unique ((perm_sortSteps l₁).trans (hp.trans (perm_sortSteps l₂).symm))
      (sorted_sortSteps l₁) (sorted_sortSteps l₂)
    intro a ha b hb hnum
    exact List.inj_on_of_nodup_map hnd ((perm_sortSteps l₁).subset ha)
      ((perm_sortSteps l₁).subset hb) hnum

theorem c6_sort_order_witness :
    List.Perm [exRun0, exRun1] [exRun1, exRun0] ∧
      (([exRun0, exRun1].map (fun s => s.num)).Nodup) ∧
      sortSteps [exRun0, exRun1] = sortSteps [exRun1, exRun0] :=
  ⟨by decide, by decide,
    c6_sort_order.2.2.2.2.2 [exRun0, exRun1] [exRun1, exRun0] (by decide) (by decide)⟩

/-- C8 amended: exit code 0 on success and nonzero on the fatal errors the
program produces; a non-OK HTTP response while establishing the event
stream exits with the reserved code 3; but a transport-level connection
failure (e.g. connection refused) aborts via `log.Fatalf`, i.e. with the
generic code 1, not 3. -/
theorem c8_exit_codes :
    exitCode none = 0
    ∧ (∀ msg, exitCode (some (.plain msg)) = 1)
    ∧ (∀ code inner, exitCode (some (.exitWrap code inner)) = code)
    ∧ (∀ c : Nat, ¬ c = 200 → setupExitCode (.response c) = some 3)
    ∧ (∀ msg, setupExitCode (.dialFailure msg) = some 1)
    ∧ setupExitCode (.response 200) = none := by
  refine ⟨rfl, fun msg => rfl, fun code inner => rfl, ?_, fun msg => rfl, rfl⟩
  intro c hc
  simp [setupExitCode, dockerStreamSetup, hc, exit, exitCode, errCode]

theorem c8_exit_codes_witness :
    ¬ (404 : Nat) = 200 ∧ setupExitCode (.response 404) = some 3 :=
  ⟨by decide, c8_exit_codes.2.2.2.1 404 (by decide)⟩

/-- C8 counterexample: a failure to even connect to the event source exits
with code 1 (`log.Fatalf`), not the reserved code 3. -/
theorem c8_counterexample :
    setupExitCode (.dialFailure "connection refused") = some 1 ∧ ¬ ((1 : Int) = 3) := by
  decide

/-- C9: the synthesizer is partial on the empty snapshot (`st[0]` would be
out of bounds — modelled as `none`), and the coordination loop reaches the
synthesizer with an empty map when the stream ends without any step
event. -/
theorem c9_empty_snapshot :
    ∀ (bc : buildContext) (n : Nat) (now : Int) (ids : List (Int × String)),
      sortSteps (stateVals ([] : StateMap)) = []
      ∧ gcb2gh bc [] n now = none
      ∧ runFinalPublish bc ids [] now = none := by
  intro bc n now ids
  exact ⟨rfl, rfl, rfl⟩

/-- A container event whose name does not start with "step_". -/
def evOther : dockerEvent :=
  { type := "container", action := "start",
    actor := { id := "", attributes := { name := "other", exitCode := "", signal := "" } },
    timeNano := 5 }

/-- A start event for a container named "step_foo" (non-numeric suffix). -/
def evStepFoo : dockerEvent :=
  { type := "container", action := "start",
    actor := { id := "", attributes := { name := "step_foo", exitCode := "", signal := "" } },
    timeNano := 7 }

/-- A start event for the real step 0. -/
def evStepZero : dockerEvent :=
  { type := "container", action := "start",
    actor := { id := "", attributes := { name := "step_0", exitCode := "", signal := "" } },
    timeNano := 8 }

/-- A die event whose exit-code attribute does not parse. -/
def evBadDie : dockerEvent :=
  { type := "container", action := "die",
    actor := { id := "", attributes := { name := "step_1", exitCode := "one", signal := "" } },
    timeNano := 9 }

/-- C10: matching is by the "step_" name prefix only; every produced
step's number is `atoi` of the trimmed suffix, with parse failures
silently mapped to 0 — so "step_foo" collides with the real step 0, and a
"die" event with an unparsable exit code is recorded as exit 0, status
Done. -/
theorem c10_normalization :
    (∀ (ids : List (Int × String)) (e : dockerEvent),
        goHasPre e.actor.attributes.name "step_" = false → normalizeEvent ids e = none)
    ∧ (∀ (ids : List (Int × String)) (e : dockerEvent),
        goHasPre e.actor.attributes.name "step_" = true → e.action = "start" →
          (normalizeEvent ids e).isSome = true)
    ∧ (∀ (ids : List (Int × String)) (e : dockerEvent) (s : gcbStep),
        normalizeEvent ids e = some s →
          s.num = atoi (goTrimPre e.actor.attributes.name "step_"))
    ∧ atoi "foo" = 0
    ∧ (normalizeEvent [] evStepFoo).map (fun s => s.num) = some 0
    ∧ (normalizeEvent [] evStepZero).map (fun s => s.num) = some 0
    ∧ (normalizeEvent [] evBadDie).map (fun s => (s.status, s.exit)) = some (.done, 0) := by
  refine ⟨?_, ?_, ?_, by decide, by decide, by decide, by decide⟩
  · intro ids e h
    simp [normalizeEvent, h]
  · intro ids e h ha
    simp [normalizeEvent, h, ha]
  · intro ids e s h
    simp only [normalizeEvent] at h
    split at h
    · exact absurd h (by simp)
    · split at h
      · simp only [Option.map_some'] at h
        injection h with h
        rw [← h]
      · simp only [Option.map_some'] at h
        injection h with h
        rw [← h]
      · simp only [Option.map_some'] at h
        injection h with h
        rw [← h]
      · exact absurd h (by simp)

theorem c10_normalization_witness :
    goHasPre evOther.actor.attributes.name "step_" = false ∧ normalizeEvent [] evOther = none :=
  ⟨by decide, c10_normalization.1 [] evOther (by decide)⟩
